import Mathlib

/-!
# Verification of the recipe-proj query-filter translation layer

Shallow embedding of the query-filter translator of the recipe REST API
(`backend/src/controllers/recipeController.js`), of the bulk-load numeric
normalization (`backend/src/utils/parser.js`), and of the store-side
evaluation of the emitted filter predicates, together with proofs of the
specification's testable properties.

Conventions of the embedding:
* JS strings are Lean `String` (lists of characters); absent (`undefined`)
  query parameters are `Option.none`.
* JS numbers that arise from parsing decimal literals are embedded as `ℚ`
  (the decimal value exactly as written).
* JS `NaN` is embedded as `Option.none` of the numeric conversion.
* Fallible operations return `Option`; every function is total, so the
  embedding of a code path that "never throws" is a plain `def`.
-/

namespace RecipeProj

/-- The whitespace class used by the JS regexes and by `$trim`
(the common ASCII whitespace characters of `\s`). -/
def isJsWs (c : Char) : Bool :=
  c == ' ' || c == '\t' || c == '\n' || c == '\r' || c == '\x0b' || c == '\x0c'

/-- Value of a list of decimal digit characters, most significant first. -/
def natVal (cs : List Char) : Nat :=
  cs.foldl (fun n c => 10 * n + (c.toNat - '0'.toNat)) 0

/-- The five comparison operators a parsed numeric filter can carry
(`$eq`, `$gt`, `$lt`, `$gte`, `$lte` in the emitted mongoose filter). -/
inductive NumOp where
  | eq | gt | lt | ge | le
deriving DecidableEq, Repr

/-- A parsed numeric filter predicate: the object `{ $op: val }` returned by
`parseNumericFilter`, i.e. an operator paired with a decimal threshold. -/
structure NumPred where
  op : NumOp
  threshold : ℚ
deriving DecidableEq, Repr

/-- The `\d+(\.\d+)?$` tail of the filter regex: a run of digits, optionally
followed by a dot and a run of digits, ending the string.  Returns the decimal
value (`parseFloat` of the matched text, exact since the text is a plain
decimal literal). -/
def parseNum (cs : List Char) : Option ℚ :=
  let ds := cs.takeWhile Char.isDigit
  if ds.isEmpty then none
  else
    match cs.dropWhile Char.isDigit with
    | [] => some (natVal ds : ℚ)
    | c :: r2 =>
      if c = '.' then
        let fs := r2.takeWhile Char.isDigit
        if fs.isEmpty then none
        else if (r2.dropWhile Char.isDigit).isEmpty then
          some ((natVal ds : ℚ) + (natVal fs : ℚ) / (10 : ℚ) ^ fs.length)
        else none
      else none

/-- The `\s*(\d+(\.\d+)?)$` part of the filter regex: optional whitespace,
then a full-match decimal number. -/
def afterOp (cs : List Char) : Option ℚ :=
  parseNum (cs.dropWhile isJsWs)

/-- One alternative of the regex's operator alternation: if `opcs` is a
prefix of the input, try to parse the remainder as `\s*\d+(\.\d+)?$` and
tag the result with `op`; otherwise (or if the remainder fails) this
alternative fails and the regex engine falls through to the next one. -/
def tryOp (op : NumOp) (opcs : List Char) (cs : List Char) : Option NumPred :=
  if opcs.isPrefixOf cs then (afterOp (cs.drop opcs.length)).map (fun v => ⟨op, v⟩)
  else none

/-- The regex `^(>=|<=|=|>|<)?\s*(\d+(\.\d+)?)$` of `parseNumericFilter`,
with the alternation tried in source order (`>=`, `<=`, `=`, `>`, `<`) and
with backtracking: a failing alternative falls through to the next, and if
no operator alternative yields a full match the optional group matches
empty.  The `switch` on the matched operator is fused into the `NumOp` tag
(`">"` → `gt`, `"<"` → `lt`, `">="` → `ge`, `"<="` → `le`, default → `eq`). -/
def parseCore (cs : List Char) : Option NumPred :=
  match tryOp .ge ['>', '='] cs with
  | some p => some p
  | none =>
  match tryOp .le ['<', '='] cs with
  | some p => some p
  | none =>
  match tryOp .eq ['='] cs with
  | some p => some p
  | none =>
  match tryOp .gt ['>'] cs with
  | some p => some p
  | none =>
  match tryOp .lt ['<'] cs with
  | some p => some p
  | none =>
  match afterOp cs with
  | some v => some ⟨.eq, v⟩
  | none => none

/-- Function `parseNumericFilter` from `recipeController.js`: `null`/`undefined` and
`""` (the only falsy strings) are rejected up front by `if (!filterStr)`;
otherwise the string must fully match the operator-number regex. -/
def parseNumericFilter (filterStr : Option String) : Option NumPred :=
  match filterStr with
  | none => none
  | some s => if s.data = [] then none else parseCore s.data

/-- Recognizer for the `\s*\d+(\.\d+)?$` tail of the grammar, written
directly over the character classes. -/
def numTailB (cs : List Char) : Bool :=
  let t := cs.dropWhile isJsWs
  if (t.takeWhile Char.isDigit).isEmpty then false
  else
    match t.dropWhile Char.isDigit with
    | [] => true
    | c :: r2 =>
      if c = '.' then !(r2.takeWhile Char.isDigit).isEmpty && (r2.dropWhile Char.isDigit).isEmpty
      else false

/-- Recognizer for the full filter grammar
`(>=|<=|=|>|<)?\s*\d+(\.\d+)?$` in committed maximal-munch form: the longest
operator prefix is taken and the rest must be a whitespace-then-number tail.
(For this grammar, committed maximal munch is equivalent to the regex's
ordered alternation with backtracking; the equivalence is proved below.) -/
def grammarB (cs : List Char) : Bool :=
  match cs with
  | [] => numTailB []
  | c1 :: rest1 =>
    if c1 = '>' ∨ c1 = '<' then
      match rest1 with
      | [] => numTailB rest1
      | c2 :: rest2 => if c2 = '=' then numTailB rest2 else numTailB rest1
    else if c1 = '=' then numTailB rest1
    else numTailB cs

/-- The operator spelling of each `NumOp`, as written in a query string. -/
def opChars : NumOp → List Char
  | .ge => ['>', '=']
  | .le => ['<', '=']
  | .eq => ['=']
  | .gt => ['>']
  | .lt => ['<']

/-- The characters of a written decimal number `digits[.digits]`. -/
def numChars (ds : List Char) (fr : Option (List Char)) : List Char :=
  ds ++ (match fr with | none => [] | some fs => '.' :: fs)

/-- The decimal value denoted by a written number `digits[.digits]`. -/
def decVal (ds : List Char) (fr : Option (List Char)) : ℚ :=
  match fr with
  | none => (natVal ds : ℚ)
  | some fs => (natVal ds : ℚ) + (natVal fs : ℚ) / (10 : ℚ) ^ fs.length

/-- Well-formedness of the optional fractional part: if present, it is a
nonempty run of digits. -/
def frOk : Option (List Char) → Bool
  | none => true
  | some fs => !fs.isEmpty && fs.all Char.isDigit

/-! ## The Query Spec builder of `getRecipes` and the search filter -/

/-- The recognized query parameters of a request (`req.query`); `none` is
an absent parameter. -/
structure ReqQuery where
  page : Option String := none
  limit : Option String := none
  sort : Option String := none
  title : Option String := none
  cuisine : Option String := none
  rating : Option String := none
  total_time : Option String := none
  calories : Option String := none
deriving DecidableEq, Repr

/-- JS truthiness of an optional string parameter (`if (req.query.x)`):
present and non-empty (the empty string is the only falsy string). -/
def truthy : Option String → Option String
  | none => none
  | some s => if s = "" then none else some s

def isHexDigitChar (c : Char) : Bool :=
  c.isDigit || ('a' ≤ c && c ≤ 'f') || ('A' ≤ c && c ≤ 'F')

def hexDigitVal (c : Char) : Nat :=
  if c.isDigit then c.toNat - '0'.toNat
  else if 'a' ≤ c && c ≤ 'f' then c.toNat - 'a'.toNat + 10
  else c.toNat - 'A'.toNat + 10

/-- Value of a list of hexadecimal digit characters. -/
def hexVal (cs : List Char) : Nat :=
  cs.foldl (fun n c => 16 * n + hexDigitVal c) 0

/-- The decimal case of `parseInt`: the longest digit prefix, `NaN` when
there is none. -/
def parseIntDec (sign : Int) (cs : List Char) : Option Int :=
  let ds := cs.takeWhile Char.isDigit
  if ds.isEmpty then none else some (sign * (natVal ds : Int))

/-- JS `parseInt(x)` with the radix argument omitted: skip leading
whitespace, read an optional sign, then either a `0x`/`0X` hexadecimal
literal or the longest decimal-digit prefix; `none` is `NaN`
(`parseInt(undefined)` is also `NaN`). -/
def jsParseInt (x : Option String) : Option Int :=
  match x with
  | none => none
  | some s =>
    let cs0 := s.data.dropWhile isJsWs
    let sc : Int × List Char :=
      match cs0 with
      | '-' :: t => (-1, t)
      | '+' :: t => (1, t)
      | _ => (1, cs0)
    match sc.2 with
    | '0' :: c :: t =>
      if c = 'x' ∨ c = 'X' then
        let hs := t.takeWhile isHexDigitChar
        if hs.isEmpty then none else some (sc.1 * (hexVal hs : Int))
      else parseIntDec sc.1 sc.2
    | _ => parseIntDec sc.1 sc.2

/-- JS `parseInt(x) || d`: the `NaN` and `0` results are falsy and give the
default. -/
def orDefault (d : Int) : Option Int → Int
  | none => d
  | some n => if n = 0 then d else n

/-- JS `String.split` with a one-character separator, on character lists;
it always returns at least one (possibly empty) chunk. -/
def splitChars (sep : Char) : List Char → List (List Char)
  | [] => [[]]
  | c :: t =>
    match splitChars sep t with
    | [] => [[]]
    | g :: gs => if c = sep then [] :: g :: gs else (c :: g) :: gs

/-- The sort specification of `getRecipes`: when `req.query.sort` is truthy
it is split on `":"`, the first chunk is the sort field and the direction is
ascending (`1`) exactly when the second chunk is `"asc"`; otherwise the
default is rating descending. -/
def sortPair (x : Option String) : String × Int :=
  match truthy x with
  | some s =>
    let parts := (splitChars ':' s.data).map String.mk
    (parts.headD "", if parts.get? 1 = some "asc" then 1 else -1)
  | none => ("rating", -1)

/-- The aggregation-expression AST emitted under `$expr` by the calories
branch. -/
inductive MExpr where
  | cmp (op : NumOp) (lhs rhs : MExpr)
  | toDouble (e : MExpr)
  | trim (e : MExpr)
  | arrayElemAt (e : MExpr) (i : Nat)
  | split (e : MExpr) (sep : String)
  | fieldPath (p : String)
  | lit (v : ℚ)
deriving DecidableEq, Repr

/-- The `$expr` tree built by the calories branches of `getRecipes` and
`searchRecipes`:
`{ [op]: [ { $toDouble: { $trim: { input: { $arrayElemAt: [{ $split: ["$nutrients.calories", " "] }, 0] } } } }, value ] }`. -/
def calExpr (p : NumPred) : MExpr :=
  .cmp p.op
    (.toDouble (.trim (.arrayElemAt (.split (.fieldPath "nutrients.calories") " ") 0)))
    (.lit p.threshold)

/-- The mongoose filter object assembled by the controllers.  Each key is
written by exactly one independent `if` in the source, so the object is
given field-wise: `title` holds the `$regex` pattern (with `$options:"i"`),
`cuisine` the exact-match string, `rating`/`total_time` the parsed numeric
predicates, and `expr` the derived `$expr` calories tree. -/
structure MongoFilter where
  title : Option String := none
  cuisine : Option String := none
  rating : Option NumPred := none
  total_time : Option NumPred := none
  expr : Option MExpr := none
deriving DecidableEq, Repr

/-- The `rating`/`total_time` branches: attach the parsed predicate only if
the parameter is truthy and parses. -/
def filterNumeric (x : Option String) : Option NumPred :=
  match truthy x with
  | some r =>
    match parseNumericFilter (some r) with
    | some p => some p
    | none => none
  | none => none

/-- The calories branch: attach the derived `$expr` tree only if the
parameter is truthy and parses to a predicate. -/
def filterCalories (x : Option String) : Option MExpr :=
  match truthy x with
  | some cstr =>
    match parseNumericFilter (some cstr) with
    | some p => some (calExpr p)
    | none => none
  | none => none

/-- The filter built by `getRecipes`. -/
def buildFilterGet (q : ReqQuery) : MongoFilter :=
  { title := truthy q.title
    cuisine := truthy q.cuisine
    rating := filterNumeric q.rating
    total_time := filterNumeric q.total_time
    expr := filterCalories q.calories }

/-- The filter built by `searchRecipes`: the same five independent branches
with the same guards and the same emitted shapes. -/
def buildFilterSearch (q : ReqQuery) : MongoFilter :=
  { title := truthy q.title
    cuisine := truthy q.cuisine
    rating := filterNumeric q.rating
    total_time := filterNumeric q.total_time
    expr := filterCalories q.calories }

/-- The full Query Spec assembled by `getRecipes`: pagination, sort and
filter. -/
structure QuerySpec where
  page : Int
  limit : Int
  sortField : String
  sortDir : Int
  filter : MongoFilter
deriving DecidableEq, Repr

/-- Controller `getRecipes`: the translation of `req.query` into the Query Spec
consumed by the store lookup.  This is a plain total function: no input
makes it fail. -/
def buildQuerySpecGet (q : ReqQuery) : QuerySpec :=
  { page := orDefault 1 (jsParseInt q.page)
    limit := orDefault 10 (jsParseInt q.limit)
    sortField := (sortPair q.sort).1
    sortDir := (sortPair q.sort).2
    filter := buildFilterGet q }

/-! ## Store-side evaluation of the emitted filter predicates

The store that evaluates the emitted filter is an external collaborator and
is not part of this repository; its evaluation of the `$expr` calories tree
and of the `$regex` title predicate is modelled from the spec below. -/

/-- A recipe document as seen by the emitted filter predicates;
`nutrients_calories` is the (optional, possibly unit-suffixed) string stored
at `nutrients.calories`. -/
structure RecipeDoc where
  title : String := ""
  cuisine : Option String := none
  rating : Option ℚ := none
  total_time : Option ℚ := none
  nutrients_calories : Option String := none
deriving DecidableEq, Repr

/-- Trim whitespace from both ends (`$trim` with default characters). -/
def trimChars (cs : List Char) : List Char :=
  ((cs.dropWhile isJsWs).reverse.dropWhile isJsWs).reverse

/-- Modelled from the spec: the decimal coercion of the extracted calories
token ("coerce to a decimal"; the store's string-to-number conversion,
which is not in this repository): an optional sign followed by a decimal
literal `digits[.digits]`; anything else is not coercible. -/
def coerceNum (cs : List Char) : Option ℚ :=
  match cs with
  | '-' :: t => (parseNum t).map (fun q => -q)
  | '+' :: t => parseNum t
  | _ => parseNum cs

/-- The value universe of the store's expression evaluator. -/
inductive MVal where
  | vstr (s : String)
  | vnum (q : ℚ)
  | varr (elems : List MVal)
  | vnull

/-- Modelled from the spec: the store's evaluation of the emitted
computed-expression operands (the store itself is outside this repository).
Per the spec, the derived calories predicate "split[s] the stored string …,
take[s] the first token, trim[s] it, coerce[s] to a decimal, and compare[s]
against the threshold using the parsed operator", and a stored value that
cannot be coerced to a number excludes the record instead of raising an
error: any failing step yields `none`, which the comparison below treats as
no-match. -/
def evalMExpr (doc : RecipeDoc) : MExpr → Option MVal
  | .fieldPath p =>
    if p = "nutrients.calories" then
      match doc.nutrients_calories with
      | some s => some (.vstr s)
      | none => some .vnull
    else none
  | .lit v => some (.vnum v)
  | .split e sep =>
    match evalMExpr doc e, sep.data with
    | some (.vstr s), [sc] =>
      some (.varr ((splitChars sc s.data).map (fun g => .vstr (String.mk g))))
    | _, _ => none
  | .arrayElemAt e i =>
    match evalMExpr doc e with
    | some (.varr l) => l.get? i
    | _ => none
  | .trim e =>
    match evalMExpr doc e with
    | some (.vstr s) => some (.vstr (String.mk (trimChars s.data)))
    | _ => none
  | .toDouble e =>
    match evalMExpr doc e with
    | some (.vstr s) => (coerceNum s.data).map .vnum
    | some (.vnum q) => some (.vnum q)
    | _ => none
  | .cmp _ _ _ => none

/-- Truth of a comparison operator on two rationals (first operand on the
left). -/
def cmpQ (op : NumOp) (a b : ℚ) : Bool :=
  match op with
  | .eq => decide (a = b)
  | .gt => decide (b < a)
  | .lt => decide (a < b)
  | .ge => decide (b ≤ a)
  | .le => decide (a ≤ b)

/-- Modelled from the spec: evaluation of the whole `$expr` filter to a
match decision; a non-numeric operand excludes the record (`false`), never
an error. -/
def evalExprFilter (doc : RecipeDoc) : MExpr → Bool
  | .cmp op l r =>
    match evalMExpr doc l, evalMExpr doc r with
    | some (.vnum a), some (.vnum b) => cmpQ op a b
    | _, _ => false
  | _ => false

/-- The calories extraction pipeline exactly as the source composes it:
split the stored string on the single-space separator `" "`, take the first
chunk, trim it, coerce it to a decimal. -/
def caloriesTokenValue : Option String → Option ℚ
  | none => none
  | some s => coerceNum (trimChars ((splitChars ' ' s.data).headD []))

/-- The match decision of the derived calories predicate: compare the
extracted token value against the threshold, excluding records whose value
is not coercible. -/
def describedCaloriesMatch (p : NumPred) (stored : Option String) : Bool :=
  match caloriesTokenValue stored with
  | some x => cmpQ p.op x p.threshold
  | none => false

/-- The claim's literal reading of the extraction step — "split the stored
string on the first whitespace run, take the first token", i.e. everything
before the first whitespace character.  Stated only to compare against the
source, whose `$split` separator is the single space `" "`. -/
def claimFirstTokenValue : Option String → Option ℚ
  | none => none
  | some s => coerceNum (trimChars (s.data.takeWhile (fun c => !isJsWs c)))

/-- The match decision under the claim's whitespace-run reading of the
extraction step. -/
def claimDescribedMatch (p : NumPred) (stored : Option String) : Bool :=
  match claimFirstTokenValue stored with
  | some x => cmpQ p.op x p.threshold
  | none => false

/-- Whether `p` occurs as a contiguous substring of `t`. -/
def occursIn (p t : List Char) : Bool :=
  match t with
  | [] => p.isEmpty
  | c :: t' => p.isPrefixOf (c :: t') || occursIn p t'

/-- Modelled from the spec: the store-side evaluation of the
`{ $regex: pattern, $options: "i" }` title predicate (the store's matcher
is outside this repository); per the spec it is a case-insensitive partial
(substring) match. -/
def evalTitleFilter (pattern docTitle : String) : Bool :=
  occursIn (pattern.data.map Char.toLower) (docTitle.data.map Char.toLower)

/-- Whether a document passes the title constraint of a filter (no
constraint means every document passes). -/
def evalFilterTitle (f : MongoFilter) (doc : RecipeDoc) : Bool :=
  match f.title with
  | some p => evalTitleFilter p doc.title
  | none => true

/-! ## Numeric-field normalization (`loadRecipes` and `addRecipe`) -/

/-- A JSON value of a request body or data file.  Composite JSON values
(arrays and objects) are collapsed into one constructor whose numeric
coercion fails: a plain JSON object coerces to `NaN`, and the degenerate
array cases that do coerce to a number still normalize to a number below,
so the number-or-null invariant is insensitive to the collapse. -/
inductive JVal where
  | jnum (q : ℚ)
  | jstr (s : String)
  | jbool (b : Bool)
  | jnull
  | jundef
  | jcomposite
deriving DecidableEq, Repr

/-- The full-match exponent part `[+-]digits` of a JS numeric literal. -/
def expVal (cs : List Char) : Option Int :=
  match cs with
  | '+' :: ds => if !ds.isEmpty && ds.all Char.isDigit then some (natVal ds : Int) else none
  | '-' :: ds => if !ds.isEmpty && ds.all Char.isDigit then some (-(natVal ds : Int)) else none
  | ds => if !ds.isEmpty && ds.all Char.isDigit then some (natVal ds : Int) else none

/-- An unsigned JS decimal numeric literal `digits[.digits][e|E exp]` or
`.digits[e|E exp]`, as a full match. -/
def numLit (cs : List Char) : Option ℚ :=
  let ds := cs.takeWhile Char.isDigit
  match cs.dropWhile Char.isDigit with
  | [] => if ds.isEmpty then none else some (natVal ds : ℚ)
  | '.' :: r2 =>
    let fs := r2.takeWhile Char.isDigit
    if ds.isEmpty && fs.isEmpty then none
    else
      let m : ℚ := (natVal ds : ℚ) + (natVal fs : ℚ) / (10 : ℚ) ^ fs.length
      match r2.dropWhile Char.isDigit with
      | [] => some m
      | 'e' :: es => (expVal es).map (fun e => m * (10 : ℚ) ^ e)
      | 'E' :: es => (expVal es).map (fun e => m * (10 : ℚ) ^ e)
      | _ => none
  | 'e' :: es => if ds.isEmpty then none else (expVal es).map (fun e => (natVal ds : ℚ) * (10 : ℚ) ^ e)
  | 'E' :: es => if ds.isEmpty then none else (expVal es).map (fun e => (natVal ds : ℚ) * (10 : ℚ) ^ e)
  | _ => none

/-- JS `Number(string)`: trim whitespace; the empty remainder is `0`;
otherwise a signed decimal literal or an unsigned `0x`/`0X` hexadecimal
literal.  (The non-finite spellings `Infinity`/`-Infinity`, which ℚ cannot
carry, and the rare `0b`/`0o` literal forms are returned as `none`; the
number-or-null normalization invariant below does not depend on this.) -/
def jsStringToNumber (s : String) : Option ℚ :=
  match trimChars s.data with
  | [] => some 0
  | '0' :: 'x' :: hs => if !hs.isEmpty && hs.all isHexDigitChar then some (hexVal hs : ℚ) else none
  | '0' :: 'X' :: hs => if !hs.isEmpty && hs.all isHexDigitChar then some (hexVal hs : ℚ) else none
  | '-' :: m => (numLit m).map (fun q => -q)
  | '+' :: m => numLit m
  | m => numLit m

/-- JS `Number(x)` on a JSON value; `none` is `NaN`. -/
def jsToNumber : JVal → Option ℚ
  | .jnum q => some q
  | .jstr s => jsStringToNumber s
  | .jbool b => some (if b then 1 else 0)
  | .jnull => some 0
  | .jundef => none
  | .jcomposite => none

/-- The per-field normalization of `loadRecipes` (`utils/parser.js`):
`"NaN"`, `undefined`, `null` and any value whose `Number(·)` is `NaN`
become `null`; everything else becomes its numeric value. -/
def normalizeLoad (v : JVal) : JVal :=
  if v = .jstr "NaN" ∨ v = .jundef ∨ v = .jnull ∨ jsToNumber v = none then .jnull
  else .jnum ((jsToNumber v).getD 0)

/-- The per-field normalization of `addRecipe` (`recipeController.js`):
`"NaN"`, `""` and any value whose `Number(·)` is `NaN` become `null`;
`undefined` and `null` are left as they are (an unreachable case for
`undefined`, whose `Number` is `NaN`); everything else becomes its numeric
value. -/
def normalizeAdd (v : JVal) : JVal :=
  if v = .jstr "NaN" ∨ v = .jstr "" ∨ jsToNumber v = none then .jnull
  else if v = .jundef ∨ v = .jnull then v
  else .jnum ((jsToNumber v).getD 0)

/-- The numeric attributes of a raw record that `loadRecipes` and
`addRecipe` normalize (all other attributes are copied through unchanged
and are not represented). -/
structure RawRecipe where
  rating : JVal := .jundef
  prep_time : JVal := .jundef
  cook_time : JVal := .jundef
  total_time : JVal := .jundef
deriving DecidableEq, Repr

/-- The per-record cleanup of `loadRecipes`. -/
def cleanRecipe (r : RawRecipe) : RawRecipe :=
  { rating := normalizeLoad r.rating
    prep_time := normalizeLoad r.prep_time
    cook_time := normalizeLoad r.cook_time
    total_time := normalizeLoad r.total_time }

/-- Loader `loadRecipes` (`utils/parser.js`): normalize the numeric fields of every
record of the parsed file. -/
def loadRecipes (rs : List RawRecipe) : List RawRecipe :=
  rs.map cleanRecipe

/-- The numeric-field normalization `addRecipe` applies to the request body
before saving. -/
def addRecipeNormalize (r : RawRecipe) : RawRecipe :=
  { rating := normalizeAdd r.rating
    prep_time := normalizeAdd r.prep_time
    cook_time := normalizeAdd r.cook_time
    total_time := normalizeAdd r.total_time }

/-- A normalized field value: a number or an explicit null — in particular
never a string, so never the literal token `"NaN"`. -/
def numOrNull (v : JVal) : Prop :=
  v = .jnull ∨ ∃ q, v = .jnum q

/-- All four numeric fields of a record are numbers-or-null. -/
def allNumOrNull (r : RawRecipe) : Prop :=
  numOrNull r.rating ∧ numOrNull r.prep_time ∧
    numOrNull r.cook_time ∧ numOrNull r.total_time

/-! ## List and character-class helper lemmas -/

lemma takeWhile_append_all {p : Char → Bool} (l1 l2 : List Char)
    (h : ∀ c ∈ l1, p c = true) :
    (l1 ++ l2).takeWhile p = l1 ++ l2.takeWhile p := by
  induction l1 with
  | nil => simp
  | cons c t ih =>
    have hc : p c = true := h c (by simp)
    simp [List.takeWhile_cons, hc, ih (fun x hx => h x (by simp [hx]))]

lemma dropWhile_append_all {p : Char → Bool} (l1 l2 : List Char)
    (h : ∀ c ∈ l1, p c = true) :
    (l1 ++ l2).dropWhile p = l2.dropWhile p := by
  induction l1 with
  | nil => simp
  | cons c t ih =>
    have hc : p c = true := h c (by simp)
    simp [List.dropWhile_cons, hc, ih (fun x hx => h x (by simp [hx]))]

lemma takeWhile_all {p : Char → Bool} (l : List Char)
    (h : ∀ c ∈ l, p c = true) : l.takeWhile p = l := by
  induction l with
  | nil => simp
  | cons c t ih =>
    have hc : p c = true := h c (by simp)
    simp [List.takeWhile_cons, hc, ih (fun x hx => h x (by simp [hx]))]

lemma dropWhile_all {p : Char → Bool} (l : List Char)
    (h : ∀ c ∈ l, p c = true) : l.dropWhile p = [] := by
  induction l with
  | nil => simp
  | cons c t ih =>
    have hc : p c = true := h c (by simp)
    simp [List.dropWhile_cons, hc, ih (fun x hx => h x (by simp [hx]))]

lemma digit_not_jsWs (c : Char) (h : c.isDigit = true) : isJsWs c = false := by
  have h1 : c ≠ ' ' := by rintro rfl; exact absurd h (by decide)
  have h2 : c ≠ '\t' := by rintro rfl; exact absurd h (by decide)
  have h3 : c ≠ '\n' := by rintro rfl; exact absurd h (by decide)
  have h4 : c ≠ '\r' := by rintro rfl; exact absurd h (by decide)
  have h5 : c ≠ '\x0b' := by rintro rfl; exact absurd h (by decide)
  have h6 : c ≠ '\x0c' := by rintro rfl; exact absurd h (by decide)
  simp [isJsWs, h1, h2, h3, h4, h5, h6]

lemma notOpChar (c : Char) (h : isJsWs c = true ∨ c.isDigit = true) :
    c ≠ '>' ∧ c ≠ '<' ∧ c ≠ '=' := by
  refine ⟨?_, ?_, ?_⟩ <;> rintro rfl <;>
    rcases h with h | h <;> exact absurd h (by decide)

/-! ## Correctness of `parseNumericFilter` on well-formed inputs -/

/-- On a whitespace-then-number tail made of well-formed pieces, the
`\s*\d+(\.\d+)?$` matcher succeeds with the written decimal value. -/
lemma afterOp_valid (ws ds : List Char) (fr : Option (List Char))
    (hws : ∀ c ∈ ws, isJsWs c = true) (hds : ds ≠ [])
    (hdig : ∀ c ∈ ds, c.isDigit = true) (hfr : frOk fr = true) :
    afterOp (ws ++ numChars ds fr) = some (decVal ds fr) := by
  have h1 : (ws ++ numChars ds fr).dropWhile isJsWs = numChars ds fr := by
    rw [dropWhile_append_all ws _ hws]
    cases ds with
    | nil => exact absurd rfl hds
    | cons d ds' =>
      have hd : isJsWs d = false := digit_not_jsWs d (hdig d (by simp))
      simp [numChars, List.dropWhile_cons, hd]
  rw [afterOp, h1]
  have hne : ds.isEmpty = false := by cases ds with | nil => exact absurd rfl hds | cons a b => rfl
  cases fr with
  | none =>
    simp only [numChars, List.append_nil]
    rw [parseNum]
    simp only [takeWhile_all ds hdig, hne, dropWhile_all ds hdig]
    rfl
  | some fs =>
    have hfsne : fs.isEmpty = false := by
      simp only [frOk, Bool.and_eq_true, Bool.not_eq_true', List.all_eq_true] at hfr
      exact hfr.1
    have hfdig : ∀ c ∈ fs, c.isDigit = true := by
      simp only [frOk, Bool.and_eq_true, Bool.not_eq_true', List.all_eq_true] at hfr
      exact hfr.2
    have hdot : ('.' : Char).isDigit = false := by decide
    have hA : (ds ++ ('.' :: fs)).takeWhile Char.isDigit = ds := by
      rw [takeWhile_append_all ds _ hdig, List.takeWhile_cons]
      simp [hdot]
    have hB : (ds ++ ('.' :: fs)).dropWhile Char.isDigit = '.' :: fs := by
      rw [dropWhile_append_all ds _ hdig, List.dropWhile_cons]
      simp [hdot]
    show parseNum (ds ++ ('.' :: fs)) = _
    rw [parseNum]
    simp only [hA, hB, hne, Bool.false_eq_true, if_false,
      takeWhile_all fs hfdig, dropWhile_all fs hfdig, hfsne, List.isEmpty_nil]
    simp [decVal]

/-- A `\s*\d+...` tail cannot start with a character that is neither
whitespace nor a digit. -/
lemma afterOp_cons_none (c : Char) (t : List Char)
    (h1 : isJsWs c = false) (h2 : c.isDigit = false) :
    afterOp (c :: t) = none := by
  simp [afterOp, List.dropWhile_cons, h1, parseNum, List.takeWhile_cons, h2]

lemma head_shape (ws ds : List Char) (fr : Option (List Char))
    (hws : ∀ c ∈ ws, isJsWs c = true) (hds : ds ≠ [])
    (hdig : ∀ c ∈ ds, c.isDigit = true) :
    ∃ c t, ws ++ numChars ds fr = c :: t ∧ (isJsWs c = true ∨ c.isDigit = true) := by
  cases ws with
  | nil =>
    cases ds with
    | nil => exact absurd rfl hds
    | cons d ds' => exact ⟨d, _, rfl, Or.inr (hdig d (by simp))⟩
  | cons w ws' => exact ⟨w, _, rfl, Or.inl (hws w (by simp))⟩

/-- The regex alternation, applied to an explicit operator spelling followed
by a tail that starts with whitespace or a digit, selects exactly that
operator: two-character operators are matched before their one-character
prefixes, so `>=`/`<=` are never mis-split. -/
lemma parseCore_with_op (op : NumOp) (c : Char) (t : List Char) (v : ℚ)
    (hcls : isJsWs c = true ∨ c.isDigit = true)
    (hv : afterOp (c :: t) = some v) :
    parseCore (opChars op ++ (c :: t)) = some ⟨op, v⟩ := by
  obtain ⟨h1, h2, h3⟩ := notOpChar c hcls
  cases op <;>
    simp [parseCore, tryOp, opChars, List.isPrefixOf, hv,
      h1, h2, h3, Ne.symm h1, Ne.symm h2, Ne.symm h3]

/-- With no operator prefix, the optional group matches empty and the
predicate defaults to equality. -/
lemma parseCore_no_op (c : Char) (t : List Char) (v : ℚ)
    (hcls : isJsWs c = true ∨ c.isDigit = true)
    (hv : afterOp (c :: t) = some v) :
    parseCore (c :: t) = some ⟨.eq, v⟩ := by
  obtain ⟨h1, h2, h3⟩ := notOpChar c hcls
  simp [parseCore, tryOp, List.isPrefixOf, hv,
    h1, h2, h3, Ne.symm h1, Ne.symm h2, Ne.symm h3]

lemma parseNumericFilter_mk (l : List Char) (hne : l ≠ []) :
    parseNumericFilter (some (String.mk l)) = parseCore l := by
  simp [parseNumericFilter, hne]

/-- Claim C1. For every input string consisting of an operator in
`{>, <, >=, <=, =}` followed by optional whitespace and a decimal number
`digits[.digits]`, `parseNumericFilter` returns the predicate whose operator
matches the written operator (two-character operators are parsed whole,
never mis-split) and whose threshold is the written decimal value; and for
a valid number with no operator prefix it returns an equality predicate
with that value. -/
theorem parse_valid_filter_strings (op : NumOp) (ws ds : List Char)
    (fr : Option (List Char)) (hws : ws.all isJsWs = true) (hds : ds ≠ [])
    (hdig : ds.all Char.isDigit = true) (hfr : frOk fr = true) :
    parseNumericFilter (some (String.mk (opChars op ++ (ws ++ numChars ds fr))))
      = some ⟨op, decVal ds fr⟩ ∧
    parseNumericFilter (some (String.mk (ws ++ numChars ds fr)))
      = some ⟨.eq, decVal ds fr⟩ := by
  rw [List.all_eq_true] at hws hdig
  obtain ⟨c, t, hct, hcls⟩ := head_shape ws ds fr hws hds hdig
  have hv : afterOp (c :: t) = some (decVal ds fr) :=
    hct ▸ afterOp_valid ws ds fr hws hds hdig hfr
  constructor
  · rw [hct, parseNumericFilter_mk _ (by cases op <;> simp [opChars])]
    exact parseCore_with_op op c t _ hcls hv
  · rw [hct, parseNumericFilter_mk _ (by simp)]
    exact parseCore_no_op c t _ hcls hv

/-- Witness for C1 at the concrete input `">= 4.5"`. -/
theorem parse_valid_filter_strings_witness :
    parseNumericFilter (some ">= 4.5") = some ⟨.ge, decVal ['4'] (some ['5'])⟩ :=
  (parse_valid_filter_strings .ge [' '] ['4'] (some ['5'])
    (by decide) (by decide) (by decide) (by decide)).1

/-! ## Completeness: strings outside the grammar are rejected -/

lemma numTailB_eq (cs : List Char) : numTailB cs = (afterOp cs).isSome := by
  rw [numTailB, afterOp]
  generalize cs.dropWhile isJsWs = t
  rw [parseNum]
  cases hds : (t.takeWhile Char.isDigit).isEmpty
  · simp only [hds, Bool.false_eq_true, if_false]
    cases hdr : t.dropWhile Char.isDigit with
    | nil => simp
    | cons c r2 =>
      by_cases hc : c = '.'
      · subst hc
        simp only [if_true, reduceIte]
        cases hfs : (r2.takeWhile Char.isDigit).isEmpty <;>
          cases hdr2 : (r2.dropWhile Char.isDigit).isEmpty <;>
            simp [hfs, hdr2]
      · simp [hc]
  · simp [hds]

/-- The committed maximal-munch recognizer agrees with the backtracking
regex parser: a string is accepted by the grammar iff `parseCore`
returns a predicate. -/
lemma grammarB_eq (cs : List Char) : grammarB cs = (parseCore cs).isSome := by
  have heqd : (('=' : Char)).isDigit = false := by decide
  have heqw : isJsWs '=' = false := by decide
  have hgtd : (('>' : Char)).isDigit = false := by decide
  have hgtw : isJsWs '>' = false := by decide
  have hltd : (('<' : Char)).isDigit = false := by decide
  have hltw : isJsWs '<' = false := by decide
  rcases cs with _ | ⟨c1, rest1⟩
  · rfl
  by_cases h1g : c1 = '>'
  · subst h1g
    rcases rest1 with _ | ⟨c2, rest2⟩
    · rfl
    by_cases h2 : c2 = '='
    · subst h2
      rw [show grammarB ('>' :: '=' :: rest2) = numTailB rest2 by simp [grammarB]]
      rw [numTailB_eq]
      cases hA : afterOp rest2 with
      | some v =>
        simp [parseCore, tryOp, List.isPrefixOf, hA]
      | none =>
        simp [parseCore, tryOp, List.isPrefixOf, hA,
          afterOp_cons_none '=' rest2 heqw heqd,
          afterOp_cons_none '>' ('=' :: rest2) hgtw hgtd]
    · rw [show grammarB ('>' :: c2 :: rest2) = numTailB (c2 :: rest2) by
        simp [grammarB, h2]]
      rw [numTailB_eq]
      cases hA : afterOp (c2 :: rest2) with
      | some v =>
        simp [parseCore, tryOp, List.isPrefixOf, hA, h2, Ne.symm h2]
      | none =>
        simp [parseCore, tryOp, List.isPrefixOf, hA, h2, Ne.symm h2,
          afterOp_cons_none '>' (c2 :: rest2) hgtw hgtd]
  by_cases h1l : c1 = '<'
  · subst h1l
    rcases rest1 with _ | ⟨c2, rest2⟩
    · rfl
    by_cases h2 : c2 = '='
    · subst h2
      rw [show grammarB ('<' :: '=' :: rest2) = numTailB rest2 by simp [grammarB]]
      rw [numTailB_eq]
      cases hA : afterOp rest2 with
      | some v =>
        simp [parseCore, tryOp, List.isPrefixOf, hA]
      | none =>
        simp [parseCore, tryOp, List.isPrefixOf, hA,
          afterOp_cons_none '=' rest2 heqw heqd,
          afterOp_cons_none '<' ('=' :: rest2) hltw hltd]
    · rw [show grammarB ('<' :: c2 :: rest2) = numTailB (c2 :: rest2) by
        simp [grammarB, h2]]
      rw [numTailB_eq]
      cases hA : afterOp (c2 :: rest2) with
      | some v =>
        simp [parseCore, tryOp, List.isPrefixOf, hA, h2, Ne.symm h2]
      | none =>
        simp [parseCore, tryOp, List.isPrefixOf, hA, h2, Ne.symm h2,
          afterOp_cons_none '<' (c2 :: rest2) hltw hltd]
  by_cases h1e : c1 = '='
  · subst h1e
    rw [show grammarB ('=' :: rest1) = numTailB rest1 by simp [grammarB]]
    rw [numTailB_eq]
    cases hA : afterOp rest1 with
    | some v =>
      simp [parseCore, tryOp, List.isPrefixOf, hA]
    | none =>
      simp [parseCore, tryOp, List.isPrefixOf, hA,
        afterOp_cons_none '=' rest1 heqw heqd]
  · rw [show grammarB (c1 :: rest1) = numTailB (c1 :: rest1) by
      simp [grammarB, h1g, h1l, h1e]]
    rw [numTailB_eq]
    simp [parseCore, tryOp, List.isPrefixOf,
      h1g, h1l, h1e, Ne.symm h1g, Ne.symm h1l, Ne.symm h1e]
    cases hA : afterOp (c1 :: rest1) <;> simp [hA]

/-- Claim C2. `parseNumericFilter` returns no predicate — never an error — on
`null`/absent input, on the empty string, and on every string that is not a
full match of the grammar `(>=|<=|=|>|<)?\s*digits[.digits]` (e.g.
`"4.5.6"`, `">="`, `"abc"`). -/
theorem parse_rejects_malformed :
    parseNumericFilter none = none ∧ parseNumericFilter (some "") = none ∧
    ∀ s : String, grammarB s.data = false → parseNumericFilter (some s) = none := by
  refine ⟨rfl, rfl, fun s hs => ?_⟩
  by_cases hd : s.data = []
  · simp [parseNumericFilter, hd]
  · rw [grammarB_eq] at hs
    cases h : parseCore s.data with
    | none => simp [parseNumericFilter, hd, h]
    | some p => rw [h] at hs; exact absurd hs (by simp)

/-- Witness for C2 at the concrete malformed inputs `"4.5.6"`, `">="`,
`"abc"`. -/
theorem parse_rejects_malformed_witness :
    grammarB "4.5.6".data = false ∧ parseNumericFilter (some "4.5.6") = none ∧
    grammarB ">=".data = false ∧ parseNumericFilter (some ">=") = none ∧
    grammarB "abc".data = false ∧ parseNumericFilter (some "abc") = none :=
  ⟨by decide, parse_rejects_malformed.2.2 "4.5.6" (by decide),
   by decide, parse_rejects_malformed.2.2 ">=" (by decide),
   by decide, parse_rejects_malformed.2.2 "abc" (by decide)⟩

/-! ## Helper lemmas on truthiness, splitting and substring search -/

lemma truthy_eq_some (x : Option String) (r : String) (h : truthy x = some r) :
    x = some r ∧ r ≠ "" := by
  cases x with
  | none => simp [truthy] at h
  | some s =>
    by_cases hs : s = ""
    · simp [truthy, hs] at h
    · simp [truthy, hs] at h
      subst h
      exact ⟨rfl, hs⟩

lemma filterNumeric_none (x : Option String) (h : parseNumericFilter x = none) :
    filterNumeric x = none := by
  rw [filterNumeric]
  cases hx : truthy x with
  | none => rfl
  | some r =>
    obtain ⟨hxr, _⟩ := truthy_eq_some x r hx
    rw [hxr] at h
    simp only [h]

lemma filterCalories_none (x : Option String) (h : parseNumericFilter x = none) :
    filterCalories x = none := by
  rw [filterCalories]
  cases hx : truthy x with
  | none => rfl
  | some r =>
    obtain ⟨hxr, _⟩ := truthy_eq_some x r hx
    rw [hxr] at h
    simp only [h]

lemma splitChars_ne_nil (sep : Char) (cs : List Char) : splitChars sep cs ≠ [] := by
  cases cs with
  | nil => simp [splitChars]
  | cons c t =>
    rw [splitChars]
    cases splitChars sep t with
    | nil => simp
    | cons g gs => by_cases h : c = sep <;> simp [h]

lemma splitChars_head (sep : Char) (cs : List Char) :
    ∃ gs, splitChars sep cs = cs.takeWhile (fun c => c != sep) :: gs := by
  induction cs with
  | nil => exact ⟨[], rfl⟩
  | cons c t ih =>
    obtain ⟨gs', hgs⟩ := ih
    by_cases hc : c = sep
    · refine ⟨t.takeWhile (fun x => x != sep) :: gs', ?_⟩
      rw [splitChars, hgs]
      simp [List.takeWhile_cons, hc]
    · refine ⟨gs', ?_⟩
      rw [splitChars, hgs]
      simp [List.takeWhile_cons, hc]

lemma splitChars_sep_split (sep : Char) (f d : List Char) (hf : ∀ c ∈ f, c ≠ sep) :
    splitChars sep (f ++ sep :: d) = f :: splitChars sep d := by
  induction f with
  | nil =>
    simp only [List.nil_append]
    rcases h : splitChars sep d with _ | ⟨g, gs⟩
    · exact absurd h (splitChars_ne_nil sep d)
    · rw [splitChars, h]
      simp
  | cons c f' ih =>
    have hc : c ≠ sep := hf c (by simp)
    have ih' := ih (fun x hx => hf x (by simp [hx]))
    rw [List.cons_append, splitChars, ih']
    simp [hc]

lemma splitChars_no_sep (sep : Char) (cs : List Char) (h : ∀ c ∈ cs, c ≠ sep) :
    splitChars sep cs = [cs] := by
  induction cs with
  | nil => rfl
  | cons c t ih =>
    have hc : c ≠ sep := h c (by simp)
    rw [splitChars, ih (fun x hx => h x (by simp [hx]))]
    simp [hc]

lemma isPrefixOf_iff_exists (p t : List Char) :
    p.isPrefixOf t = true ↔ ∃ r, p ++ r = t := by
  induction p generalizing t with
  | nil => simp [List.isPrefixOf]
  | cons a p' ih =>
    cases t with
    | nil =>
      constructor
      · intro h; exact absurd h (by simp [List.isPrefixOf])
      · rintro ⟨r, hr⟩; simp at hr
    | cons b t' =>
      rw [show (a :: p').isPrefixOf (b :: t') = ((a == b) && p'.isPrefixOf t') from rfl]
      constructor
      · intro h
        rw [Bool.and_eq_true] at h
        obtain ⟨hab, hp⟩ := h
        obtain ⟨r, hr⟩ := (ih t').mp hp
        exact ⟨r, by rw [beq_iff_eq] at hab; simp [hab, hr]⟩
      · rintro ⟨r, hr⟩
        rw [List.cons_append] at hr
        injection hr with h1 h2
        rw [Bool.and_eq_true]
        exact ⟨by simp [h1], (ih t').mpr ⟨r, h2⟩⟩

lemma occursIn_iff (p t : List Char) :
    occursIn p t = true ↔ ∃ l r, t = l ++ (p ++ r) := by
  induction t with
  | nil =>
    rw [occursIn]
    constructor
    · intro h
      cases p with
      | nil => exact ⟨[], [], rfl⟩
      | cons a p' => simp [List.isEmpty] at h
    · rintro ⟨l, r, hr⟩
      rw [show ([] : List Char) = l ++ (p ++ r) ↔ l ++ (p ++ r) = [] from eq_comm] at hr
      simp only [List.append_eq_nil] at hr
      simp [hr.2.1]
  | cons c t' ih =>
    rw [occursIn, Bool.or_eq_true, isPrefixOf_iff_exists, ih]
    constructor
    · rintro (⟨r, hr⟩ | ⟨l, r, hr⟩)
      · exact ⟨[], r, by simp [hr]⟩
      · exact ⟨c :: l, r, by simp [hr]⟩
    · rintro ⟨l, r, hr⟩
      cases l with
      | nil => exact Or.inl ⟨r, by simpa using hr.symm⟩
      | cons a l' =>
        rw [List.cons_append] at hr
        injection hr with h1 h2
        exact Or.inr ⟨l', r, h2⟩

/-! ## The derived calories filter (C3) -/

/-- Claim C3, counterexample. The claim reads the extraction step as "split the
stored string on the first whitespace run"; the source's `$split` separator
is the single space `" "`.  At the stored value `"389\tkcal"` (tab-separated)
with filter `<=400`, the whitespace-run reading extracts `389` and matches,
but the emitted filter fails to coerce the whole tab-containing chunk and
excludes the record. -/
theorem calories_whitespace_run_counterexample :
    evalExprFilter { nutrients_calories := some "389\tkcal" }
        (calExpr ⟨.le, 400⟩) = false ∧
    claimDescribedMatch ⟨.le, 400⟩ (some "389\tkcal") = true :=
  ⟨by decide, by decide⟩

/-- Claim C3, amended: the split separator is the single space.  When
the calories parameter parses to a predicate, both builders emit the derived
computed-expression filter, and its evaluation on any record equals: split
the stored `nutrients.calories` string on `" "`, take the first chunk, trim
it, coerce it to a decimal and compare it to the threshold with the parsed
operator — a record whose stored value cannot be coerced (or is absent) is
excluded from the match, and the evaluation is a total function, so the
query as a whole never raises an error. -/
theorem calories_filter_derivation (q : ReqQuery) (cstr : String) (p : NumPred)
    (hc : q.calories = some cstr) (hp : parseNumericFilter (some cstr) = some p) :
    (buildFilterGet q).expr = some (calExpr p) ∧
    (buildFilterSearch q).expr = some (calExpr p) ∧
    (∀ doc : RecipeDoc,
      evalExprFilter doc (calExpr p) = describedCaloriesMatch p doc.nutrients_calories) ∧
    (∀ doc : RecipeDoc, caloriesTokenValue doc.nutrients_calories = none →
      evalExprFilter doc (calExpr p) = false) := by
  have hne : cstr ≠ "" := by
    rintro rfl
    rw [parseNumericFilter] at hp
    simp at hp
  have hb : filterCalories q.calories = some (calExpr p) := by
    simp [filterCalories, hc, truthy, hne, hp]
  have heval : ∀ doc : RecipeDoc,
      evalExprFilter doc (calExpr p) = describedCaloriesMatch p doc.nutrients_calories := by
    intro doc
    cases hd : doc.nutrients_calories with
    | none =>
      simp [evalExprFilter, calExpr, evalMExpr, hd,
        describedCaloriesMatch, caloriesTokenValue]
    | some s =>
      rcases hsp : splitChars ' ' s.data with _ | ⟨g, gs⟩
      · exact absurd hsp (splitChars_ne_nil ' ' s.data)
      · cases hco : coerceNum (trimChars g) <;>
          simp [evalExprFilter, calExpr, evalMExpr, hd, hsp,
            describedCaloriesMatch, caloriesTokenValue, hco]
  refine ⟨hb, hb, heval, fun doc hnone => ?_⟩
  rw [heval doc, describedCaloriesMatch, hnone]

/-- Witness for (amended) C3 at `calories="<=400"` and the stored value
`"389 kcal"`. -/
theorem calories_filter_derivation_witness :
    (buildFilterGet { calories := some "<=400" }).expr
        = some (calExpr ⟨.le, decVal ['4', '0', '0'] none⟩) ∧
    evalExprFilter { nutrients_calories := some "389 kcal" }
        (calExpr ⟨.le, decVal ['4', '0', '0'] none⟩)
      = describedCaloriesMatch ⟨.le, decVal ['4', '0', '0'] none⟩
          (some "389 kcal") := by
  have h := calories_filter_derivation { calories := some "<=400" } "<=400"
    ⟨.le, decVal ['4', '0', '0'] none⟩ rfl rfl
  exact ⟨h.1, h.2.2.1 { nutrients_calories := some "389 kcal" }⟩

/-! ## Total, degrading builder (C4) -/

/-- Claim C4. The Query Spec builder is a total function — no mapping of
(possibly malformed) string parameters makes it fail — and every optional
field that is absent or unparsable is simply omitted from the resulting
filter, in both `getRecipes` and `searchRecipes`. -/
theorem builder_never_fails_omits_unparsable (q : ReqQuery) :
    (truthy q.title = none → (buildQuerySpecGet q).filter.title = none) ∧
    (truthy q.cuisine = none → (buildQuerySpecGet q).filter.cuisine = none) ∧
    (parseNumericFilter q.rating = none → (buildQuerySpecGet q).filter.rating = none) ∧
    (parseNumericFilter q.total_time = none →
      (buildQuerySpecGet q).filter.total_time = none) ∧
    (parseNumericFilter q.calories = none → (buildQuerySpecGet q).filter.expr = none) ∧
    (truthy q.title = none → (buildFilterSearch q).title = none) ∧
    (truthy q.cuisine = none → (buildFilterSearch q).cuisine = none) ∧
    (parseNumericFilter q.rating = none → (buildFilterSearch q).rating = none) ∧
    (parseNumericFilter q.total_time = none → (buildFilterSearch q).total_time = none) ∧
    (parseNumericFilter q.calories = none → (buildFilterSearch q).expr = none) := by
  refine ⟨fun h => h, fun h => h,
    fun h => filterNumeric_none _ h, fun h => filterNumeric_none _ h,
    fun h => filterCalories_none _ h,
    fun h => h, fun h => h,
    fun h => filterNumeric_none _ h, fun h => filterNumeric_none _ h,
    fun h => filterCalories_none _ h⟩

/-- Witness for C4 at a mapping whose five filter parameters are all
malformed or empty: every filter field is omitted. -/
theorem builder_never_fails_omits_unparsable_witness :
    (buildQuerySpecGet { title := some "", cuisine := none, rating := some "banana", total_time := some "4.5.6", calories := some ">=" }).filter.title = none ∧
    (buildQuerySpecGet { title := some "", cuisine := none, rating := some "banana", total_time := some "4.5.6", calories := some ">=" }).filter.cuisine = none ∧
    (buildQuerySpecGet { title := some "", cuisine := none, rating := some "banana", total_time := some "4.5.6", calories := some ">=" }).filter.rating = none ∧
    (buildQuerySpecGet { title := some "", cuisine := none, rating := some "banana", total_time := some "4.5.6", calories := some ">=" }).filter.total_time = none ∧
    (buildQuerySpecGet { title := some "", cuisine := none, rating := some "banana", total_time := some "4.5.6", calories := some ">=" }).filter.expr = none := by
  have h := builder_never_fails_omits_unparsable { title := some "", cuisine := none, rating := some "banana", total_time := some "4.5.6", calories := some ">=" }
  exact ⟨h.1 (by decide), h.2.1 (by decide), h.2.2.1 (by rfl),
    h.2.2.2.1 (by rfl), h.2.2.2.2.1 (by rfl)⟩

/-! ## Pagination defaults (C5) -/

/-- Claim C5, counterexample. The claim says page is "parsed as a positive
integer" with default 1 when absent or unparsable; but `page="-2"` parses
(via `parseInt`) to `-2`, which is neither a positive integer nor the
default. -/
theorem page_negative_counterexample :
    (buildQuerySpecGet { page := some "-2" }).page = -2 ∧
    (buildQuerySpecGet { page := some "-2" }).page ≠ 1 ∧
    ¬(0 < (buildQuerySpecGet { page := some "-2" }).page) :=
  ⟨by decide, by decide, by decide⟩

/-- Claim C5, amended: the builder does not enforce positivity.  `page` and
`limit` are parsed with JS `parseInt` semantics: when the parameter is
absent, when the parse yields `NaN`, or when it yields `0`, the defaults 1
and 10 apply; any nonzero parsed integer — including a negative one — is
passed through unchanged, and no input raises an error. -/
theorem page_limit_defaults (q : ReqQuery) :
    (q.page = none → (buildQuerySpecGet q).page = 1) ∧
    (jsParseInt q.page = none → (buildQuerySpecGet q).page = 1) ∧
    (jsParseInt q.page = some 0 → (buildQuerySpecGet q).page = 1) ∧
    (∀ n : Int, jsParseInt q.page = some n → n ≠ 0 → (buildQuerySpecGet q).page = n) ∧
    (q.limit = none → (buildQuerySpecGet q).limit = 10) ∧
    (jsParseInt q.limit = none → (buildQuerySpecGet q).limit = 10) ∧
    (jsParseInt q.limit = some 0 → (buildQuerySpecGet q).limit = 10) ∧
    (∀ n : Int, jsParseInt q.limit = some n → n ≠ 0 →
      (buildQuerySpecGet q).limit = n) := by
  refine ⟨fun h => ?_, fun h => ?_, fun h => ?_, fun n h hn => ?_,
    fun h => ?_, fun h => ?_, fun h => ?_, fun n h hn => ?_⟩
  · simp [buildQuerySpecGet, orDefault, h, jsParseInt]
  · simp [buildQuerySpecGet, orDefault, h]
  · simp [buildQuerySpecGet, orDefault, h]
  · simp [buildQuerySpecGet, orDefault, h, hn]
  · simp [buildQuerySpecGet, orDefault, h, jsParseInt]
  · simp [buildQuerySpecGet, orDefault, h]
  · simp [buildQuerySpecGet, orDefault, h]
  · simp [buildQuerySpecGet, orDefault, h, hn]

/-- Witness for (amended) C5: `page="7"` is used as written, `limit="abc"`
falls back to the default 10. -/
theorem page_limit_defaults_witness :
    (buildQuerySpecGet { page := some "7", limit := some "abc" }).page = 7 ∧
    (buildQuerySpecGet { page := some "7", limit := some "abc" }).limit = 10 := by
  have h := page_limit_defaults { page := some "7", limit := some "abc" }
  exact ⟨h.2.2.2.1 7 (by rfl) (by decide), h.2.2.2.2.2.1 (by rfl)⟩

/-! ## Sort translation (C6) -/

/-- Claim C6, counterexample. The claim says every present sort parameter is
split as `<field>:<direction>`; but the present-and-empty `sort=""` is
treated as absent (its split would give the field `""`), and the builder
falls back to the rating-descending default instead. -/
theorem sort_empty_counterexample :
    (buildQuerySpecGet { sort := some "" }).sortField = "rating" ∧
    (buildQuerySpecGet { sort := some "" }).sortField
      ≠ ((splitChars ':' "".data).map String.mk).headD "" :=
  ⟨by decide, by decide⟩

/-- Claim C6, amended: a present-but-empty sort also gets the default.  A
present non-empty sort parameter is split at `":"`: the part before the
first colon is the sort field, and the direction is ascending exactly when
the part between the first and second colon equals `"asc"` (absent or
different direction parts give descending).  An absent — or empty — sort
parameter gives the default rating descending. -/
theorem sort_translation :
    (∀ q : ReqQuery, q.sort = none →
      (buildQuerySpecGet q).sortField = "rating" ∧
        (buildQuerySpecGet q).sortDir = -1) ∧
    (∀ q : ReqQuery, q.sort = some "" →
      (buildQuerySpecGet q).sortField = "rating" ∧
        (buildQuerySpecGet q).sortDir = -1) ∧
    (∀ (q : ReqQuery) (s : String), q.sort = some s → s ≠ "" →
      ((∀ c ∈ s.data, c ≠ ':') →
        (buildQuerySpecGet q).sortField = s ∧ (buildQuerySpecGet q).sortDir = -1) ∧
      (∀ f d : List Char, s.data = f ++ ':' :: d → (∀ c ∈ f, c ≠ ':') →
        (buildQuerySpecGet q).sortField = String.mk f ∧
          (buildQuerySpecGet q).sortDir =
            (if d.takeWhile (fun c => c != ':') = "asc".data then 1 else -1))) := by
  refine ⟨fun q h => ?_, fun q h => ?_, fun q s hq hne => ⟨fun hnc => ?_, ?_⟩⟩
  · constructor <;> simp [buildQuerySpecGet, sortPair, truthy, h]
  · constructor <;> simp [buildQuerySpecGet, sortPair, truthy, h]
  · have h1 : splitChars ':' s.data = [s.data] := splitChars_no_sep ':' s.data hnc
    constructor <;>
      simp [buildQuerySpecGet, sortPair, truthy, hq, hne, h1, List.get?]
  · intro f d hsd hf
    have h1 : splitChars ':' s.data = f :: splitChars ':' d := by
      rw [hsd]; exact splitChars_sep_split ':' f d hf
    obtain ⟨gs, hgs⟩ := splitChars_head ':' d
    have hiff : (String.mk (d.takeWhile (fun c => c != ':')) = "asc")
        ↔ (d.takeWhile (fun c => c != ':') = "asc".data) := by
      constructor
      · intro h; exact congrArg String.data h
      · intro h; exact congrArg String.mk h
    constructor
    · simp [buildQuerySpecGet, sortPair, truthy, hq, hne, h1]
    · have htr : truthy q.sort = some s := by simp [truthy, hq, hne]
      have hmap : ((splitChars ':' s.data).map String.mk).get? 1
          = some (String.mk (d.takeWhile (fun c => c != ':'))) := by
        rw [h1, hgs]; rfl
      show (sortPair q.sort).2 = _
      simp only [sortPair, htr]
      rw [hmap]
      simp only [Option.some.injEq]
      by_cases ht : d.takeWhile (fun c => c != ':') = "asc".data
      · simp [ht, hiff.mpr ht]
      · rw [if_neg fun hh => ht (hiff.mp hh), if_neg ht]

/-- Witness for (amended) C6: `sort="title:asc"` sorts by title ascending,
and an absent sort gives the rating-descending default. -/
theorem sort_translation_witness :
    (buildQuerySpecGet { sort := some "title:asc" }).sortField = "title" ∧
    (buildQuerySpecGet { sort := some "title:asc" }).sortDir = 1 ∧
    (buildQuerySpecGet {}).sortField = "rating" ∧
    (buildQuerySpecGet {}).sortDir = -1 := by
  have h := sort_translation
  have h3 := (h.2.2 { sort := some "title:asc" } "title:asc" rfl (by decide)).2
    ['t', 'i', 't', 'l', 'e'] ['a', 's', 'c'] rfl (by decide)
  have hd := h.1 {} rfl
  refine ⟨h3.1, ?_, hd.1, hd.2⟩
  rw [h3.2]
  decide

/-! ## Case-insensitive title substring filter (C7) -/

/-- Claim C7. For every mapping whose title parameter is present and
non-empty, both builders attach that string as the title constraint, and a
record passes the constraint exactly when the given title occurs as a
substring of the record's title, ignoring case (store-side `$regex`/`i`
evaluation modelled from the spec as a case-insensitive substring match). -/
theorem title_substring_filter (q : ReqQuery) (t : String) (doc : RecipeDoc)
    (hq : q.title = some t) (hne : t ≠ "") :
    (buildFilterGet q).title = some t ∧
    (buildFilterSearch q).title = some t ∧
    (evalFilterTitle (buildFilterGet q) doc = true ↔
      ∃ l r, doc.title.data.map Char.toLower
        = l ++ (t.data.map Char.toLower ++ r)) := by
  have hb : truthy q.title = some t := by simp [truthy, hq, hne]
  refine ⟨hb, hb, ?_⟩
  rw [show evalFilterTitle (buildFilterGet q) doc = evalTitleFilter t doc.title from by
    simp [evalFilterTitle, buildFilterGet, hb]]
  rw [evalTitleFilter]
  exact occursIn_iff _ _

/-- Witness for C7: the pattern `"PIE"` matches the record title
`"apple PIE!"` case-insensitively. -/
theorem title_substring_filter_witness :
    evalFilterTitle (buildFilterGet { title := some "PIE" })
      { title := "apple PIE!" } = true := by
  have h := title_substring_filter { title := some "PIE" } "PIE"
    { title := "apple PIE!" } rfl (by decide)
  exact h.2.2.mpr ⟨['a', 'p', 'p', 'l', 'e', ' '], ['!'], by decide⟩

/-! ## Normalized numeric record fields (C8) -/

/-- Claim C8. For every record processed by `loadRecipes` and every request
body processed by `addRecipe`, each of the numeric fields `rating`,
`prep_time`, `cook_time`, `total_time` of the output is a number or `null`
— never a non-numeric string and never the literal token `"NaN"`. -/
theorem numeric_fields_num_or_null :
    (∀ (rs : List RawRecipe) (r : RawRecipe), r ∈ loadRecipes rs → allNumOrNull r) ∧
    (∀ r : RawRecipe, allNumOrNull (addRecipeNormalize r)) := by
  have hload : ∀ v, numOrNull (normalizeLoad v) := by
    intro v
    by_cases h : v = .jstr "NaN" ∨ v = .jundef ∨ v = .jnull ∨ jsToNumber v = none
    · rw [normalizeLoad, if_pos h]; exact Or.inl rfl
    · rw [normalizeLoad, if_neg h]; exact Or.inr ⟨_, rfl⟩
  have hadd : ∀ v, numOrNull (normalizeAdd v) := by
    intro v
    by_cases h1 : v = .jstr "NaN" ∨ v = .jstr "" ∨ jsToNumber v = none
    · rw [normalizeAdd, if_pos h1]; exact Or.inl rfl
    · by_cases h2 : v = .jundef ∨ v = .jnull
      · rcases h2 with rfl | rfl
        · exact absurd (Or.inr (Or.inr rfl)) h1
        · rw [normalizeAdd, if_neg h1, if_pos (Or.inr rfl)]
          exact Or.inl rfl
      · rw [normalizeAdd, if_neg h1, if_neg h2]
        exact Or.inr ⟨_, rfl⟩
  constructor
  · rintro rs r hr
    rw [loadRecipes] at hr
    obtain ⟨r0, _, rfl⟩ := List.mem_map.mp hr
    exact ⟨hload _, hload _, hload _, hload _⟩
  · intro r
    exact ⟨hadd _, hadd _, hadd _, hadd _⟩

/-- Witness for C8 at a record carrying the `"NaN"` token, a numeric
string, a null and a non-numeric string. -/
theorem numeric_fields_num_or_null_witness :
    allNumOrNull (cleanRecipe ⟨.jstr "NaN", .jstr "4.5", .jnull, .jstr "abc"⟩) ∧
    allNumOrNull (addRecipeNormalize ⟨.jstr "NaN", .jstr "4.5", .jnull, .jstr "abc"⟩) :=
  ⟨numeric_fields_num_or_null.1 [⟨.jstr "NaN", .jstr "4.5", .jnull, .jstr "abc"⟩] _
      (by simp [loadRecipes]),
   numeric_fields_num_or_null.2 _⟩

/-! ## Determinism (C9) and agreement of the two endpoints (C10) -/

/-- Claim C9. Building a Query Spec is deterministic: the translation is a
pure function of the input mapping (the source reads only its arguments and
touches no shared mutable state), so two builds from value-equal mappings
yield value-equal specs — same filter, same sort, same page and limit. -/
theorem build_deterministic (q q' : ReqQuery) (h : q = q') :
    buildQuerySpecGet q = buildQuerySpecGet q' := by rw [h]

/-- Witness for C9 at a concrete mapping. -/
theorem build_deterministic_witness :
    buildQuerySpecGet { title := some "pie", rating := some ">=4.5" }
      = buildQuerySpecGet { title := some "pie", rating := some ">=4.5" } :=
  build_deterministic _ _ rfl

/-- Claim C10. For every mapping, the filter object constructed by
`getRecipes` is value-equal to the filter object constructed by
`searchRecipes` — the two endpoints implement the same translation of the
five filter parameters (title, cuisine, rating, total_time, calories). -/
theorem get_search_same_filter (q : ReqQuery) :
    buildFilterGet q = buildFilterSearch q := rfl

end RecipeProj
